import Mathlib

/-!
Verification of the tabular normalization engine of the xlsx-to-csv CLI
(`src/lib/utils.ts`, `src/lib/request.ts`, `src/index.js`, `src/types.d.ts`).

The JavaScript/TypeScript functions are shallowly embedded as executable
Lean definitions over `List`-based rows and tables of strings.  JavaScript
strings are modelled as Lean `String`/`List Char`; the JavaScript numeric
coercion `+string` (used by the code on spreadsheet cell text) is modelled
by `Xlsx.jsToNumber`, restricted to decimal literals, which is the shape of
all cell text the program feeds it.
-/

set_option maxHeartbeats 1000000

namespace Xlsx

/-- A row of cells, as in `src/types.d.ts` (`Row<T> = Array<T>`). -/
abbrev Row (α : Type) := List α

/-- A table of rows, as in `src/types.d.ts` (`Table<T> = Array<Row<T>>`). -/
abbrev Table (α : Type) := List (Row α)

/-! ## CSV row parser (`toRow` in `src/lib/utils.ts`) -/

/-- `isQuotationMark` from `src/lib/utils.ts`: the character is `"`. -/
def isQuotationMark (c : Char) : Bool := c = '"'

/-- `isSeparator` from `src/lib/utils.ts`: the character is a comma. -/
def isSeparator (c : Char) : Bool := c = ','

/-- Single-pass scan of `toRow` (`src/lib/utils.ts`).  `cells` holds the
cells already terminated by an unquoted comma; `cur` is the accumulating
current cell, `none` when no character has been appended to it yet (the
JavaScript code materialises `row[idx]` lazily via `if (!row[idx])`, so a
final cell to which nothing was ever appended does not appear in the
result). -/
def toRowAux : List Char → List (List Char) → Option (List Char) → Bool → List (List Char)
  | [], cells, cur, _ =>
    cells ++ (match cur with | some s => [s] | none => [])
  | c :: rest, cells, cur, wq =>
    if isQuotationMark c then toRowAux rest cells cur (!wq)
    else if isSeparator c && !wq then toRowAux rest (cells ++ [cur.getD []]) none wq
    else toRowAux rest cells (some (cur.getD [] ++ [c])) wq

/-- The cell contents produced by scanning a line's characters. -/
def toRowChars (cs : List Char) : List (List Char) := toRowAux cs [] none false

/-- `toRow` from `src/lib/utils.ts`: convert one CSV-formatted line into a
row of string cells. -/
def toRow (line : String) : Row String := (toRowChars line.data).map String.mk

/-! ## Matrix utilities (`transpose`, `hasEntry`, `toCsv` in `src/lib/utils.ts`) -/

/-- `transpose` from `src/lib/utils.ts`.  An empty table is returned
unchanged; otherwise the output has `nCols` rows of length `nRows`, where
`nCols` is the length of the input's first row.  Out-of-range reads (which
in JavaScript yield `undefined`) are modelled by the default `""` /`[]`. -/
def transpose (t : Table String) : Table String :=
  if t.length = 0 then t
  else
    (List.range (t.headD []).length).map
      (fun j => (List.range t.length).map (fun i => (t.getD i []).getD j ""))

/-- `hasEntry` from `src/lib/utils.ts`: some cell of the row is truthy,
i.e. a non-empty string. -/
def hasEntry (row : Row String) : Bool := row.any (fun cell => decide (cell ≠ ""))

/-- One row of `toCsv` (`src/lib/utils.ts`): every cell is wrapped in
double quotes and the cells are joined with commas
(`row.map(cell => "${cell}" in quotes).join(',')`), written by recursion on
the row. -/
def toCsvRow : Row String → String
  | [] => ""
  | [cell] => "\"" ++ cell ++ "\""
  | cell :: rest => "\"" ++ cell ++ "\"" ++ "," ++ toCsvRow rest

/-- Character-level form of `toCsvRow`, used to reason about parsing. -/
def csvRowChars : List (List Char) → List Char
  | [] => []
  | [c] => '"' :: (c ++ ['"'])
  | c :: rest => '"' :: (c ++ ['"', ','] ++ csvRowChars rest)

/-- `removeLineBreaks` from `src/lib/utils.ts`, with `replaceAll` on the
one-character patterns `'\n'`/`'\r'` modelled by per-character
substitution `replaceChar`. -/
def replaceChar (c : Char) (rep : List Char) : List Char → List Char
  | [] => []
  | d :: rest => (if d = c then rep else [d]) ++ replaceChar c rep rest

/-- `toEnglishFormat` from `src/lib/utils.ts`: swap the roles of `,` and
`.` via the temporary placeholder `@`
(`str.replaceAll(',', '@').replaceAll('.', ',').replaceAll('@', '.')`). -/
def toEnglishFormat (s : String) : String :=
  String.mk (replaceChar '@' ['.'] (replaceChar '.' [','] (replaceChar ',' ['@'] s.data)))

/-! ## JavaScript numbers

The code applies the JavaScript unary `+` to cell text (in
`cell.v = +cell.w` of `src/index.js` / `src/types.d.ts` and in the
`Number.isNaN(+cell.replaceAll(',', ''))` test of `split`).  `JsNumber`
models a JavaScript number as either `NaN` or a rational; `jsToNumber`
models string-to-number coercion on (optionally signed) decimal literals
with optional fraction and exponent — the only shapes arising from
spreadsheet cell text (hex or `Infinity` literals are out of scope). -/

/-- A JavaScript number: `NaN` or an exact rational value. -/
inductive JsNumber : Type
  | nan : JsNumber
  | num : ℚ → JsNumber
deriving DecidableEq

/-- JavaScript truthiness of a number: `NaN` and `0` are falsy. -/
def JsNumber.truthy : JsNumber → Bool
  | .nan => false
  | .num q => decide (q ≠ 0)

/-- Numeric value of a digit string (most significant digit first). -/
def digitsVal (cs : List Char) : Nat :=
  cs.foldl (fun n c => n * 10 + (c.toNat - '0'.toNat)) 0

/-- All characters are decimal digits. -/
def allDigits (cs : List Char) : Bool := cs.all (fun c => c.isDigit)

/-- Split a character list at the first occurrence of `c`, if any. -/
def splitAtChar (c : Char) : List Char → Option (List Char × List Char)
  | [] => none
  | d :: rest =>
    if d = c then some ([], rest)
    else (splitAtChar c rest).map (fun p => (d :: p.1, p.2))

/-- Integer powers of ten, as rationals. -/
def pow10 : Int → ℚ
  | Int.ofNat n => (10 : ℚ) ^ n
  | Int.negSucc n => 1 / (10 : ℚ) ^ (n + 1)

/-- Parse an unsigned decimal mantissa (`123`, `123.45`, `.45`, `123.`). -/
def parseMantissa (cs : List Char) : Option ℚ :=
  match splitAtChar '.' cs with
  | none =>
    if !cs.isEmpty && allDigits cs then some (digitsVal cs : ℚ) else none
  | some (ip, fp) =>
    if !(ip ++ fp).isEmpty && allDigits ip && allDigits fp then
      some ((digitsVal ip : ℚ) + (digitsVal fp : ℚ) / (10 : ℚ) ^ fp.length)
    else none

/-- Parse an optionally signed decimal exponent. -/
def parseExponent (cs : List Char) : Option Int :=
  match cs with
  | '+' :: ds => if !ds.isEmpty && allDigits ds then some (digitsVal ds : Int) else none
  | '-' :: ds => if !ds.isEmpty && allDigits ds then some (-(digitsVal ds : Int)) else none
  | ds => if !ds.isEmpty && allDigits ds then some (digitsVal ds : Int) else none

/-- Drop JavaScript-trimmable whitespace from both ends. -/
def trimWs (cs : List Char) : List Char :=
  ((cs.dropWhile Char.isWhitespace).reverse.dropWhile Char.isWhitespace).reverse

/-- Combine a parsed mantissa and exponent part, or `NaN`. -/
def withExponent (sgn : ℚ) (m e : List Char) : JsNumber :=
  match parseMantissa m, parseExponent e with
  | some q, some k => JsNumber.num (sgn * q * pow10 k)
  | _, _ => JsNumber.nan

/-- JavaScript `+string` on decimal literals: trim whitespace, an empty
string is `0`, otherwise an optional sign followed by a decimal mantissa
and optional `e`/`E` exponent; anything else is `NaN`. -/
def jsToNumber (s : String) : JsNumber :=
  let cs := trimWs s.data
  if cs.isEmpty then JsNumber.num 0
  else
    let sb : ℚ × List Char :=
      match cs with
      | '+' :: r => (1, r)
      | '-' :: r => (-1, r)
      | r => (1, r)
    match splitAtChar 'e' sb.2 with
    | some (m, e) => withExponent sb.1 m e
    | none =>
      match splitAtChar 'E' sb.2 with
      | some (m, e) => withExponent sb.1 m e
      | none =>
        match parseMantissa sb.2 with
        | some q => JsNumber.num (sb.1 * q)
        | none => JsNumber.nan

/-! ## Cell normalizer, numeric branch (`src/index.js`, `src/types.d.ts`)

For a numeric cell (`cell.t === 'n'`) with German-format conversion
enabled the code runs
`if (cell.w) { cell.w = toEnglishFormat(cell.w); if (cell.v) cell.v = +cell.w; }`. -/

/-- A numeric cell: display text `w` and typed value `v`. -/
structure NumCell : Type where
  w : String
  v : JsNumber
deriving DecidableEq

/-- The German-to-English numeric-cell conversion applied by
`transformCells` when locale conversion is enabled. -/
def convertGermanNumberCell (cell : NumCell) : NumCell :=
  if cell.w ≠ "" then
    let w2 := toEnglishFormat cell.w
    { w := w2, v := if cell.v.truthy then jsToNumber w2 else cell.v }
  else cell

/-! ## Table splitter (`split` in `src/types.d.ts`, tightened variant)

`findStartIndex` is `Array.findIndex` returning `null` when nothing is
found; the call sites then apply `|| 0`, which maps both `null` and `0`
to `0` — modelled by `Option.getD 0`. -/

/-- `Array.findIndex`: index of the first element satisfying `p`. -/
def findIdxP (p : α → Bool) : List α → Option Nat
  | [] => none
  | a :: l => if p a then some 0 else (findIdxP p l).map (· + 1)

/-- A row is complete: its count of non-empty cells equals `nCols`
(`row.filter((cell) => cell).length === nCols`). -/
def isCompleteRow (nCols : Nat) (row : Row String) : Bool :=
  decide ((row.filter (fun cell => decide (cell ≠ ""))).length = nCols)

/-- The `requireNumber` test of the tightened `split`: some cell, with
commas stripped, coerces to a non-`NaN` number
(`row.some((cell) => !Number.isNaN(+cell.replaceAll(',', '')))`). -/
def rowHasNumber (row : Row String) : Bool :=
  row.any (fun cell => decide (jsToNumber (String.mk (replaceChar ',' [] cell.data)) ≠ JsNumber.nan))

/-- `firstRow` of `split`: the first complete row that also passes the
`requireNumber` test, defaulting to `0` (`findStartIndex(table, true) || 0`). -/
def firstDataIdx (t : Table String) : Nat :=
  (findIdxP (fun row => isCompleteRow (t.headD []).length row && rowHasNumber row) t).getD 0

/-- `lastRow` of `split`: `nRows - 1 - (findStartIndex([...table].reverse()) || 0)`. -/
def lastDataIdx (t : Table String) : Nat :=
  t.length - 1 - (findIdxP (isCompleteRow (t.headD []).length) t.reverse).getD 0

/-- The two outputs of `split`. -/
structure SplitResult : Type where
  header : Table String
  data : Table String
deriving DecidableEq

/-- `split` from `src/types.d.ts` (tightened variant): header is the rows
strictly before `firstRow`, data the rows from `firstRow` through
`lastRow` inclusive (`table.slice(firstRow, lastRow + 1)`), and an empty
header or data block is replaced by one blank row of width `nCols`. -/
def split (t : Table String) : SplitResult :=
  if t = [] then ⟨[], []⟩
  else
    let nCols := (t.headD []).length
    let fr := firstDataIdx t
    let lr := lastDataIdx t
    let header0 := t.take fr
    let data0 := (t.take (lr + 1)).drop fr
    ⟨if header0 = [] then [List.replicate nCols ""] else header0,
     if data0 = [] then [List.replicate nCols ""] else data0⟩

/-! ## Column naming (`requestColumnNames` in `src/lib/request.ts`)

The interactive prompt layer is abstracted by two parameters: the
operator's answer to the "reuse previous column names?" question
(`acceptReuse`) and the text typed for column `j` (`entered j`, `none`
meaning the shown default was accepted).  Everything else is the code's
own logic. -/

/-- The string `'ignored'` that the column filter tests for. -/
def ignoredLit : String := "ignored"

/-- The rendered "ignored" marker `chalk.dim.italic('ignored')`: the word
`ignored` wrapped in the ANSI dim and italic escape sequences. -/
def ignoredMarker : String := "\x1b[2m\x1b[3mignored\x1b[23m\x1b[22m"

/-- JavaScript `toLowerCase` on the ASCII strings the tool compares. -/
def toLowerCase (s : String) : String := String.mk (s.data.map Char.toLower)

/-- The `filter` of the `'no'`-sentinel variant (`src/types.d.ts`,
historical versions): an answer whose lowercase form is `no` becomes the
ignored marker. -/
def colNameFilterNo (s : String) : String :=
  if toLowerCase s = "no" then ignoredMarker else s

/-- The `filter` of the `'-'`-sentinel variant (`src/lib/request.ts`):
an answer whose lowercase form is `-` becomes the ignored marker. -/
def colNameFilterDash (s : String) : String :=
  if toLowerCase s = "-" then ignoredMarker else s

/-- Remove the first `'\r'`, as `cell.replace('\r', '')` does. -/
def removeFirstCR : List Char → List Char
  | [] => []
  | c :: rest => if c = '\r' then rest else c :: removeFirstCR rest

/-- `Array.join(sep)` on character lists. -/
def joinSep (sep : List Char) : List (List Char) → List Char
  | [] => []
  | [x] => x
  | x :: rest => x ++ sep ++ joinSep sep rest

/-- The derived default name for one column: the column's non-empty header
cells, each with a stray `'\r'` removed and trimmed, joined with `" / "`. -/
def deriveDefault (heading : Row String) : String :=
  String.mk (joinSep " / ".data
    ((heading.filter (fun cell => decide (cell ≠ ""))).map
      (fun cell => trimWs (removeFirstCR cell.data))))

/-- `requestColumnNames` from `src/lib/request.ts`.  The reuse question is
only shown when no default names were supplied and previous names exist
(`when: () => !defaultColNames && prevColNames`); accepting it returns the
previous names verbatim.  Otherwise one name is solicited per column of
`transpose(header)`, seeded with the per-column default (explicit default,
derived heading, or the `col_<j+1>` placeholder), and the `'-'` sentinel
filter is applied to each answer; the answers are re-sorted by column
index, which leaves the column order of `transpose(header)` unchanged. -/
def requestColumnNames (header : Table String)
    (defaultColNames prevColNames : Option (List String))
    (acceptReuse : Bool) (entered : Nat → Option String) : List String :=
  let usePrev := acceptReuse && defaultColNames.isNone && prevColNames.isSome
  if usePrev then prevColNames.getD []
  else
    (transpose header).enum.map (fun p =>
      let defVal : String :=
        match defaultColNames with
        | some ds => ds.getD p.1 ""
        | none => deriveDefault p.2
      let shown := if defVal ≠ "" then defVal else "col_" ++ toString (p.1 + 1)
      colNameFilterDash ((entered p.1).getD shown))

/-! ## Table assembler (`src/index.js` / `src/types.d.ts` `main`)

After `data.unshift(colNames)` the code drops ignored columns with
`transpose(transpose(data).filter((row) => !row[0].includes('ignored')))`. -/

/-- `String.prototype.includes`: `pat` occurs as a contiguous substring. -/
def isSubstr (pat : List Char) : List Char → Bool
  | [] => pat.isEmpty
  | c :: rest => pat.isPrefixOf (c :: rest) || isSubstr pat rest

/-- The filter predicate on a transposed column-row: keep it unless its
first cell contains `'ignored'` (`!row[0].includes('ignored')`). -/
def keepColumn (row : Row String) : Bool :=
  !(isSubstr ignoredLit.data (row.headD "").data)

/-- Prepend the column names and drop ignored columns, as in `main`. -/
def removeIgnoredColumns (data : Table String) (colNames : Row String) : Table String :=
  transpose ((transpose (colNames :: data)).filter keepColumn)

/-- Column `j` of a table, read off cell by cell. -/
def columnAt (t : Table String) (j : Nat) : Row String :=
  t.map (fun row => row.getD j "")

/-! ## Empty-row/empty-column trimming (`main` in `src/index.js`)

`table.filter(hasEntry)` then
`transpose(transpose(table).filter(hasEntry))`. -/

/-- The trimming step of `main`: drop fully empty rows, then fully empty
columns. -/
def trimTable (t : Table String) : Table String :=
  transpose ((transpose (t.filter hasEntry)).filter hasEntry)

/-! ## Helper scans used to state the corrected cell-count property of
`toRow` -/

/-- Number of commas read while `withinQuotes` is false. -/
def commaCount : List Char → Bool → Nat
  | [], _ => 0
  | c :: rest, wq =>
    if isQuotationMark c then commaCount rest (!wq)
    else if isSeparator c && !wq then 1 + commaCount rest wq
    else commaCount rest wq

/-- Whether, after the last unquoted comma (or from the start, seeded with
`h`), at least one character has been appended to the current cell. -/
def tailHasChars : List Char → Bool → Bool → Bool
  | [], _, h => h
  | c :: rest, wq, h =>
    if isQuotationMark c then tailHasChars rest (!wq) h
    else if isSeparator c && !wq then tailHasChars rest wq false
    else tailHasChars rest wq true

/-- Accumulate characters onto the current cell, as the within-quotes
branch of `toRowAux` does. -/
def appendChars : Option (List Char) → List Char → Option (List Char)
  | cur, [] => cur
  | cur, c :: cs => appendChars (some (cur.getD [] ++ [c])) cs

/-- The table of the header/data-split example in the specification. -/
def exTable : Table String :=
  [["a", "b"], ["", "c"], ["d", "e"], ["f", ""], ["g", "h"]]

/-! ## List helpers -/

theorem ext_of_getD {α : Type} (d : α) {l₁ l₂ : List α} (hl : l₁.length = l₂.length)
    (h : ∀ i, i < l₁.length → l₁.getD i d = l₂.getD i d) : l₁ = l₂ := by
  apply List.ext_getElem hl
  intro n h₁ h₂
  rw [← List.getD_eq_getElem l₁ d h₁, ← List.getD_eq_getElem l₂ d h₂]
  exact h n h₁

theorem getD_mem {α : Type} {l : List α} {i : Nat} (d : α) (h : i < l.length) :
    l.getD i d ∈ l := by
  rw [List.getD_eq_getElem l d h]
  exact List.getElem_mem h

theorem headD_mem {α : Type} {l : List α} (d : α) (h : l ≠ []) : l.headD d ∈ l := by
  cases l with
  | nil => exact absurd rfl h
  | cons a l => simp

theorem getD_reverse {α : Type} {l : List α} {q : Nat} (d : α) (h : q < l.length) :
    l.reverse.getD (l.length - 1 - q) d = l.getD q d := by
  have h1 : l.length - 1 - q < l.reverse.length := by
    rw [List.length_reverse]; omega
  rw [List.getD_eq_getElem _ d h1, List.getD_eq_getElem _ d h, List.getElem_reverse]
  congr 1
  omega

/-! ## Facts about `findIdxP` (the embedding of `Array.findIndex`) -/

theorem findIdxP_some {α : Type} (p : α → Bool) (d : α) :
    ∀ (l : List α) (k : Nat), findIdxP p l = some k →
      k < l.length ∧ p (l.getD k d) = true := by
  intro l
  induction l with
  | nil => intro k h; simp [findIdxP] at h
  | cons a l ih =>
    intro k h
    simp only [findIdxP] at h
    split at h
    · cases h
      exact ⟨by simp, by simpa⟩
    · rcases Option.map_eq_some'.mp h with ⟨k', hk', rfl⟩
      obtain ⟨h1, h2⟩ := ih k' hk'
      exact ⟨by simpa using Nat.succ_lt_succ h1, by simpa using h2⟩

theorem findIdxP_le {α : Type} (p : α → Bool) (d : α) :
    ∀ (l : List α) (k : Nat), k < l.length → p (l.getD k d) = true →
      ∃ j, findIdxP p l = some j ∧ j ≤ k := by
  intro l
  induction l with
  | nil => intro k h _; simp at h
  | cons a l ih =>
    intro k hk hp
    by_cases hpa : p a = true
    · exact ⟨0, by simp [findIdxP, hpa], Nat.zero_le k⟩
    · cases k with
      | zero => simp at hp; exact absurd hp hpa
      | succ k' =>
        have hk' : k' < l.length := by simpa using hk
        obtain ⟨j, hj, hle⟩ := ih k' hk' (by simpa using hp)
        exact ⟨j + 1, by simp [findIdxP, hpa, hj], Nat.succ_le_succ hle⟩

theorem findIdxP_lt_not {α : Type} (p : α → Bool) (d : α) :
    ∀ (l : List α) (j : Nat), findIdxP p l = some j →
      ∀ i, i < j → p (l.getD i d) = false := by
  intro l
  induction l with
  | nil => intro j h; simp [findIdxP] at h
  | cons a l ih =>
    intro j h i hi
    simp only [findIdxP] at h
    split at h
    · cases h; omega
    · rcases Option.map_eq_some'.mp h with ⟨j', hj', rfl⟩
      rename_i hpa
      cases i with
      | zero => simpa using Bool.not_eq_true _ ▸ (by simpa using hpa)
      | succ i' => simpa using ih j' hj' i' (by omega)

/-! ## Facts about `transpose` -/

theorem length_transpose (t : Table String) :
    (transpose t).length = (t.headD []).length := by
  by_cases h : t.length = 0
  · rw [List.length_eq_zero] at h
    subst h
    rfl
  · simp [transpose, h]

theorem mem_transpose_length {t : Table String} {row : Row String}
    (h : row ∈ transpose t) : row.length = t.length := by
  by_cases ht : t.length = 0
  · rw [List.length_eq_zero] at ht
    subst ht
    simp [transpose] at h
  · simp only [transpose, if_neg ht] at h
    rcases List.mem_map.mp h with ⟨j, _, rfl⟩
    simp

theorem transpose_getD {t : Table String} {j i : Nat}
    (hj : j < (t.headD []).length) (hi : i < t.length) :
    ((transpose t).getD j []).getD i "" = (t.getD i []).getD j "" := by
  have ht : ¬ t.length = 0 := by omega
  have h1 : (transpose t).getD j [] =
      (List.range t.length).map (fun i => (t.getD i []).getD j "") := by
    rw [transpose, if_neg ht, List.getD_eq_getElem _ _ (by simpa using hj)]
    simp
  rw [h1, List.getD_eq_getElem _ _ (by simpa using hi)]
  simp

theorem transpose_eq_map_columnAt (t : Table String) (ht : t ≠ []) :
    transpose t = (List.range (t.headD []).length).map (columnAt t) := by
  have htl : ¬ t.length = 0 := by simpa [List.length_eq_zero] using ht
  rw [transpose, if_neg htl]
  apply List.map_congr_left
  intro j _
  apply ext_of_getD ""
  · simp [columnAt]
  · intro i hi
    have hi' : i < t.length := by simpa using hi
    rw [List.getD_eq_getElem _ _ hi, List.getD_eq_getElem _ _ (by simpa [columnAt] using hi')]
    simp only [List.getElem_map, List.getElem_range, columnAt]
    rw [List.getD_eq_getElem t [] hi']

theorem transpose_involution (t : Table String) (n : Nat) (hn : 0 < n)
    (hrect : ∀ r ∈ t, r.length = n) : transpose (transpose t) = t := by
  rcases eq_or_ne t [] with rfl | ht
  · rfl
  have htl : 0 < t.length := List.length_pos.mpr ht
  have hw : (t.headD []).length = n := hrect _ (headD_mem [] ht)
  have hTlen : (transpose t).length = n := by rw [length_transpose, hw]
  have hT : transpose t ≠ [] := by
    intro h
    rw [h] at hTlen
    simp at hTlen
    omega
  have hTw : ((transpose t).headD []).length = t.length :=
    mem_transpose_length (headD_mem [] hT)
  apply ext_of_getD ([] : Row String)
  · rw [length_transpose, hTw]
  · intro i hi
    have hi' : i < t.length := by rwa [length_transpose, hTw] at hi
    have hlen2 : ((transpose (transpose t)).getD i []).length = n := by
      rw [mem_transpose_length (getD_mem ([] : Row String) hi), hTlen]
    apply ext_of_getD ""
    · rw [hlen2, hrect _ (getD_mem ([] : Row String) hi')]
    · intro j hj
      have hjn : j < n := by rwa [hlen2] at hj
      have e1 : ((transpose (transpose t)).getD i []).getD j "" =
          ((transpose t).getD j []).getD i "" :=
        transpose_getD (by rw [hTw]; exact hi') (by rw [hTlen]; exact hjn)
      have e2 : ((transpose t).getD j []).getD i "" = (t.getD i []).getD j "" :=
        transpose_getD (by rw [hw]; exact hjn) hi'
      rw [e1, e2]

/-! ## Facts about the CSV row parser -/

theorem toRowAux_quote (rest : List Char) (cells : List (List Char))
    (cur : Option (List Char)) (wq : Bool) :
    toRowAux ('"' :: rest) cells cur wq = toRowAux rest cells cur (!wq) := rfl

theorem toRowAux_quote_false (rest : List Char) (cells : List (List Char))
    (cur : Option (List Char)) :
    toRowAux ('"' :: rest) cells cur false = toRowAux rest cells cur true := rfl

theorem toRowAux_quote_true (rest : List Char) (cells : List (List Char))
    (cur : Option (List Char)) :
    toRowAux ('"' :: rest) cells cur true = toRowAux rest cells cur false := rfl

theorem toRowAux_comma (rest : List Char) (cells : List (List Char))
    (cur : Option (List Char)) :
    toRowAux (',' :: rest) cells cur false = toRowAux rest (cells ++ [cur.getD []]) none false := rfl

theorem appendChars_some (cs : List Char) :
    ∀ s : List Char, appendChars (some s) cs = some (s ++ cs) := by
  induction cs with
  | nil => intro s; simp [appendChars]
  | cons c cs ih =>
    intro s
    show appendChars (some (s ++ [c])) cs = _
    rw [ih (s ++ [c])]
    simp

theorem appendChars_none (cs : List Char) :
    appendChars none cs = if cs = [] then none else some cs := by
  cases cs with
  | nil => rfl
  | cons c cs =>
    show appendChars (some ([] ++ [c])) cs = _
    rw [appendChars_some]
    simp

theorem appendChars_none_getD (cs : List Char) : (appendChars none cs).getD [] = cs := by
  rw [appendChars_none]
  split <;> simp_all

theorem toRowAux_append_chunk : ∀ (cs : List Char), '"' ∉ cs →
    ∀ (rest : List Char) (cells : List (List Char)) (cur : Option (List Char)),
      toRowAux (cs ++ rest) cells cur true = toRowAux rest cells (appendChars cur cs) true := by
  intro cs
  induction cs with
  | nil => intro _ rest cells cur; simp [appendChars]
  | cons c cs ih =>
    intro h rest cells cur
    have hc : c ≠ '"' := fun e => h (by simp [e])
    have h' : '"' ∉ cs := fun m => h (List.mem_cons_of_mem _ m)
    have step : toRowAux (c :: (cs ++ rest)) cells cur true =
        toRowAux (cs ++ rest) cells (some (cur.getD [] ++ [c])) true := by
      simp [toRowAux, isQuotationMark, isSeparator, hc]
    rw [List.cons_append, step, ih h' rest cells (some (cur.getD [] ++ [c]))]
    rfl

theorem toRowAux_csvRow : ∀ (r : List (List Char)), (∀ c ∈ r, '"' ∉ c) →
    ∀ cells : List (List Char),
      toRowAux (csvRowChars r) cells none false =
        cells ++ (if r.getLast? = some [] then r.dropLast else r) := by
  intro r
  induction r with
  | nil => intro _ cells; simp [csvRowChars, toRowAux]
  | cons c rest ih =>
    intro h cells
    have hc : '"' ∉ c := h c (by simp)
    cases rest with
    | nil =>
      simp only [csvRowChars]
      rw [toRowAux_quote_false, toRowAux_append_chunk c hc, toRowAux_quote_true]
      rcases eq_or_ne c [] with rfl | hne
      · simp [toRowAux, appendChars]
      · rw [appendChars_none, if_neg hne]
        simp [toRowAux, hne]
    | cons c' rest' =>
      simp only [csvRowChars]
      rw [toRowAux_quote_false, List.append_assoc, toRowAux_append_chunk c hc]
      simp only [List.cons_append, List.nil_append]
      rw [toRowAux_quote_true, toRowAux_comma, appendChars_none_getD,
        ih (fun x hx => h x (List.mem_cons_of_mem _ hx)) (cells ++ [c])]
      rw [List.getLast?_cons_cons]
      split
      · rw [List.dropLast_cons₂]
        simp
      · simp

theorem strdata_quoteMark : ("\"" : String).data = ['"'] := rfl

theorem strdata_comma : ("," : String).data = [','] := rfl

theorem toCsvRow_data : ∀ r : List String, (toCsvRow r).data = csvRowChars (r.map String.data) := by
  intro r
  induction r with
  | nil => rfl
  | cons c rest ih =>
    cases rest with
    | nil =>
      simp only [toCsvRow]
      rw [String.data_append, String.data_append, strdata_quoteMark]
      simp [csvRowChars]
    | cons c' rest' =>
      simp only [toCsvRow]
      rw [String.data_append, String.data_append, String.data_append, String.data_append,
        strdata_quoteMark, strdata_comma, ih]
      simp [csvRowChars]

theorem toRowAux_length : ∀ (cs : List Char) (cells : List (List Char))
    (cur : Option (List Char)) (wq : Bool),
    (toRowAux cs cells cur wq).length =
      cells.length + commaCount cs wq + (if tailHasChars cs wq cur.isSome then 1 else 0) := by
  intro cs
  induction cs with
  | nil =>
    intro cells cur wq
    cases cur <;> simp [toRowAux, commaCount, tailHasChars]
  | cons c rest ih =>
    intro cells cur wq
    by_cases hq : isQuotationMark c
    · simp only [toRowAux, commaCount, tailHasChars, hq, if_pos, ite_true, ih]
    · by_cases hs : (isSeparator c && !wq) = true
      · simp only [toRowAux, commaCount, tailHasChars, hq, hs, ite_false, ite_true,
          Bool.false_eq_true, if_neg, if_pos, ih]
        simp [Option.isSome]
        omega
      · simp only [toRowAux, commaCount, tailHasChars, hq, hs, Bool.false_eq_true,
          ite_false, ih]
        simp [Option.isSome]

/-! ## The `split` function, unfolded for a non-empty table -/

theorem split_eq (t : Table String) (ht : t ≠ []) :
    split t =
      ⟨if t.take (firstDataIdx t) = []
          then [List.replicate (t.headD []).length ""] else t.take (firstDataIdx t),
        if (t.take (lastDataIdx t + 1)).drop (firstDataIdx t) = []
          then [List.replicate (t.headD []).length ""]
          else (t.take (lastDataIdx t + 1)).drop (firstDataIdx t)⟩ := by
  rw [split, if_neg ht]

/-! ## Claim theorems -/

/-- C1 (corrected): with locale conversion enabled, a numeric cell whose
display text is `"1.234,56"` has its display text rewritten to
`"1,234.56"` by the three-step placeholder substitution, but the typed
value recomputed by `cell.v = +cell.w` is `NaN`, not `1234.56`: the
rewritten text still contains a comma, which JavaScript numeric coercion
rejects.  The display text is kept as rewritten. -/
theorem claim1_localeConversion (v : JsNumber) (hv : v.truthy = true) :
    convertGermanNumberCell ⟨"1.234,56", v⟩ = ⟨"1,234.56", JsNumber.nan⟩ := by
  simp only [convertGermanNumberCell]
  rw [if_pos (show ("1.234,56" : String) ≠ "" from by decide)]
  simp only [hv, eq_self_iff_true, if_true]
  decide

/-- C1, counterexample to the claim as stated: the typed value after
conversion is not `1234.56`. -/
theorem claim1_counterexample :
    (convertGermanNumberCell ⟨"1.234,56", JsNumber.num 1⟩).w = "1,234.56" ∧
      (convertGermanNumberCell ⟨"1.234,56", JsNumber.num 1⟩).v ≠
        JsNumber.num ((123456 : ℚ) / 100) := by
  decide

/-- C1, witness: the amended theorem applied to the truthy typed value `1`. -/
theorem claim1_witness :
    convertGermanNumberCell ⟨"1.234,56", JsNumber.num 1⟩ = ⟨"1,234.56", JsNumber.nan⟩ :=
  claim1_localeConversion (JsNumber.num 1) (by decide)

/-- C4 (corrected): parsing the serialized form of a row `r` (each cell
quoted, comma-joined) recovers `r` exactly, provided no cell contains a
double quote and additionally the last cell of `r` is not the empty
string — the parser never materialises a trailing cell to which no
character was appended. -/
theorem claim4_roundTrip (r : List String) (hq : ∀ s ∈ r, '"' ∉ s.data)
    (hlast : r.getLast? ≠ some "") : toRow (toCsvRow r) = r := by
  have hq' : ∀ c ∈ r.map String.data, '"' ∉ c := by
    intro c hcm
    rcases List.mem_map.mp hcm with ⟨s, hs, rfl⟩
    exact hq s hs
  have hcond : ¬ (r.map String.data).getLast? = some [] := by
    rw [List.getLast?_map]
    intro hsome
    rcases Option.map_eq_some'.mp hsome with ⟨s, hs, hdata⟩
    have hs0 : s = "" := String.ext (by simpa using hdata)
    rw [hs0] at hs
    exact hlast hs
  unfold toRow toRowChars
  rw [toCsvRow_data, toRowAux_csvRow (r.map String.data) hq' [], if_neg hcond]
  simp only [List.nil_append, List.map_map]
  have hid : (String.mk ∘ String.data) = id := by
    funext s
    rfl
  rw [hid, List.map_id]

/-- C4, counterexample to the claim as stated: a single empty cell is
serialized as `""` but parsed back as the empty row. -/
theorem claim4_counterexample : toRow (toCsvRow [""]) ≠ [""] := by decide

/-- C4, witness: the round trip on the row `["a", "b"]`. -/
theorem claim4_witness : toRow (toCsvRow ["a", "b"]) = ["a", "b"] :=
  claim4_roundTrip ["a", "b"] (by decide) (by decide)

/-- C5 (corrected): the number of cells returned by the CSV row parser is
the number of unquoted commas, plus one exactly when at least one
character is appended after the last unquoted comma; the final cell is
otherwise omitted (so it is not `1 + number of unquoted commas` in
general, and an empty line yields no cell at all). -/
theorem claim5_cellCount (line : String) :
    (toRow line).length =
      commaCount line.data false + (if tailHasChars line.data false false then 1 else 0) := by
  have h := toRowAux_length line.data [] none false
  simpa [toRow, toRowChars] using h

/-- C5, counterexample to the claim as stated: `"a,"` has one unquoted
comma but parses to a single cell, not two. -/
theorem claim5_counterexample :
    ¬ ((toRow "a,").length = commaCount ("a,").data false + 1) := by decide

/-- C7 (confirmed): during per-column resolution the entered name becomes
the fixed ignored marker exactly when its lowercase form equals the
reserved sentinel (`"no"` in one variant, `"-"` in the other) and is
returned as the literal text otherwise; in particular `"No"` yields the
marker in the `"no"` variant and `"Norway"` stays `"Norway"`. -/
theorem claim7_sentinel :
    (∀ s, toLowerCase s = "no" → colNameFilterNo s = ignoredMarker) ∧
    (∀ s, toLowerCase s ≠ "no" → colNameFilterNo s = s) ∧
    (∀ s, toLowerCase s = "-" → colNameFilterDash s = ignoredMarker) ∧
    (∀ s, toLowerCase s ≠ "-" → colNameFilterDash s = s) ∧
    colNameFilterNo "No" = ignoredMarker ∧
    colNameFilterNo "Norway" = "Norway" ∧
    colNameFilterDash "Norway" = "Norway" := by
  refine ⟨?_, ?_, ?_, ?_, by decide, by decide, by decide⟩ <;>
    · intro s h
      simp [colNameFilterNo, colNameFilterDash, h]

/-- C7, witness: a non-sentinel name is returned literally. -/
theorem claim7_witness : colNameFilterNo "Oslo" = "Oslo" :=
  claim7_sentinel.2.1 "Oslo" (by decide)

/-- C9 (corrected): `transpose` is an involution on tables that are
rectangular with at least one column (it is not an involution on a
non-empty table of zero-length rows, which transposes to the empty
table). -/
theorem claim9_transposeInvolution (t : Table String) (n : Nat) (hn : 0 < n)
    (hrect : ∀ r ∈ t, r.length = n) : transpose (transpose t) = t :=
  transpose_involution t n hn hrect

/-- C9, counterexample to the claim as stated: the rectangular table
`[[]]` (one row, zero columns) is not recovered by a double transpose. -/
theorem claim9_counterexample :
    transpose (transpose [([] : Row String)]) ≠ [([] : Row String)] := by decide

/-- C9, witness: the double transpose of a concrete 2×2 table. -/
theorem claim9_witness :
    transpose (transpose [["a", "b"], ["c", "d"]]) = [["a", "b"], ["c", "d"]] :=
  claim9_transposeInvolution [["a", "b"], ["c", "d"]] 2 (by decide) (by decide)

/-- C3 (confirmed): for every non-empty table the tightened `split`
returns a header and a data table each having at least one row (an empty
block is replaced by a single blank row of width `nCols`); on the
specification's example table the header is the single blank row
`["", ""]` and the data is the whole table. -/
theorem claim3_splitNondegenerate :
    (∀ t : Table String, t ≠ [] →
        1 ≤ (split t).header.length ∧ 1 ≤ (split t).data.length) ∧
    (split exTable).header = [["", ""]] ∧ (split exTable).data = exTable := by
  refine ⟨fun t ht => ?_, by decide, by decide⟩
  rw [split_eq t ht]
  constructor
  · dsimp only
    split
    · simp
    · rename_i hne
      have := List.length_pos.mpr hne
      omega
  · dsimp only
    split
    · simp
    · rename_i hne
      have := List.length_pos.mpr hne
      omega

/-- C3, witness: both blocks of `split [[""]]` have at least one row. -/
theorem claim3_witness :
    1 ≤ (split [[""]]).header.length ∧ 1 ≤ (split [[""]]).data.length :=
  claim3_splitNondegenerate.1 [[""]] (by decide)

/-- C6 (corrected): after prepending the resolved column names, the
assembly step (transpose, filter, transpose back) keeps, in their
original relative order, exactly those columns whose resolved name does
not contain the substring `'ignored'` — the filter is
`row[0].includes('ignored')`, a substring test, not an equality test
against the marker (which does contain that substring), so a column whose
name merely contains `'ignored'` is also dropped. -/
theorem claim6_dropIgnored (data : Table String) (colNames : Row String) :
    transpose (removeIgnoredColumns data colNames) =
      ((List.range colNames.length).filter
          (fun j => !(isSubstr ignoredLit.data (colNames.getD j "").data))).map
        (columnAt (colNames :: data)) ∧
    isSubstr ignoredLit.data ignoredMarker.data = true := by
  refine ⟨?_, by decide⟩
  have ht' : colNames :: data ≠ [] := List.cons_ne_nil _ _
  have hhead : ((colNames :: data).headD []) = colNames := rfl
  have step1 : transpose (colNames :: data) =
      (List.range colNames.length).map (columnAt (colNames :: data)) := by
    rw [transpose_eq_map_columnAt _ ht', hhead]
  have step2 : (transpose (colNames :: data)).filter keepColumn =
      ((List.range colNames.length).filter
          (fun j => !(isSubstr ignoredLit.data (colNames.getD j "").data))).map
        (columnAt (colNames :: data)) := by
    rw [step1, List.filter_map]
    exact congrArg _ (List.filter_congr (fun j _ => rfl))
  have hXrect : ∀ r ∈ ((List.range colNames.length).filter
        (fun j => !(isSubstr ignoredLit.data (colNames.getD j "").data))).map
      (columnAt (colNames :: data)), r.length = (colNames :: data).length := by
    intro r hr
    rcases List.mem_map.mp hr with ⟨j, _, rfl⟩
    simp [columnAt]
  calc transpose (removeIgnoredColumns data colNames)
      = transpose (transpose (((List.range colNames.length).filter
          (fun j => !(isSubstr ignoredLit.data (colNames.getD j "").data))).map
        (columnAt (colNames :: data)))) := by rw [removeIgnoredColumns, step2]
    _ = _ := transpose_involution _ (colNames :: data).length (by simp) hXrect

/-- C6, counterexample to the claim as stated: a column whose resolved
name is `"keepignoredkeep"` — not the ignored marker — is nevertheless
dropped. -/
theorem claim6_counterexample :
    removeIgnoredColumns [["1"]] ["keepignoredkeep"] = [] ∧
      "keepignoredkeep" ≠ ignoredMarker := by decide

/-- C8 (corrected): `requestColumnNames` returns one name per header
column (for any width 1–50) whenever the per-column prompting path is
taken; but when the operator accepts the offer to reuse the previous
sheet's names, those are returned verbatim, so the result length is the
previous list's length, which need not match the header's column
count. -/
theorem claim8_nameCount (header : Table String) (n : Nat)
    (defaultColNames prevColNames : Option (List String)) (acceptReuse : Bool)
    (entered : Nat → Option String)
    (hn : (header.headD []).length = n) (h1 : 1 ≤ n) (h50 : n ≤ 50)
    (hpath : ¬(acceptReuse = true ∧ defaultColNames = none ∧ prevColNames.isSome = true)) :
    (requestColumnNames header defaultColNames prevColNames acceptReuse entered).length = n := by
  have husep : (acceptReuse && defaultColNames.isNone && prevColNames.isSome) = false := by
    rcases h : acceptReuse && defaultColNames.isNone && prevColNames.isSome with _ | _
    · rfl
    · exfalso
      apply hpath
      rcases Bool.and_eq_true_iff.mp h with ⟨h2, h3⟩
      rcases Bool.and_eq_true_iff.mp h2 with ⟨h4, h5⟩
      exact ⟨h4, Option.isNone_iff_eq_none.mp h5, h3⟩
  rw [requestColumnNames]
  rw [husep]
  rw [if_neg (show ¬ (false = true) from by simp)]
  rw [List.length_map, List.enum_length, length_transpose, hn]

/-- C8, counterexample to the claim as stated: with a two-column header,
accepting the reuse of the single previous name `["p"]` returns a list of
length 1, not 2. -/
theorem claim8_counterexample :
    (requestColumnNames [["a", "b"]] none (some ["p"]) true (fun _ => none)).length ≠
      (([["a", "b"]] : Table String).headD []).length := by decide

/-- C8, witness: the prompting path on a one-column header returns one
name. -/
theorem claim8_witness :
    (requestColumnNames [["h"]] none none false (fun _ => some "x")).length = 1 :=
  claim8_nameCount [["h"]] 1 none none false (fun _ => some "x")
    (by decide) (by decide) (by decide) (by decide)

/-- C10 (confirmed): after the empty-row/empty-column trimming step of
`main` (filter rows by `hasEntry`, then transpose, filter by `hasEntry`,
transpose back) on a rectangular table, every row of the result contains
a non-empty cell and every column of the result contains a non-empty
cell. -/
theorem claim10_trimInvariant (t : Table String) (n : Nat)
    (hrect : ∀ r ∈ t, r.length = n) :
    (∀ row ∈ trimTable t, hasEntry row = true) ∧
    (∀ col ∈ transpose (trimTable t), hasEntry col = true) := by
  have hR0entry : ∀ r ∈ t.filter hasEntry, hasEntry r = true :=
    fun r hr => (List.mem_filter.mp hr).2
  have hR0rect : ∀ r ∈ t.filter hasEntry, r.length = n :=
    fun r hr => hrect r (List.mem_filter.mp hr).1
  rcases eq_or_ne (t.filter hasEntry) [] with h0 | h0
  · have htrim : trimTable t = [] := by rw [trimTable, h0]; rfl
    rw [htrim]
    exact ⟨fun row hrow => absurd hrow (List.not_mem_nil row),
      fun col hcol => absurd hcol (by simp [transpose])⟩
  have hR0len : 0 < (t.filter hasEntry).length := List.length_pos.mpr h0
  have hCrect : ∀ col ∈ transpose (t.filter hasEntry), col.length = (t.filter hasEntry).length :=
    fun col hc => mem_transpose_length hc
  have hC'entry : ∀ col ∈ (transpose (t.filter hasEntry)).filter hasEntry, hasEntry col = true :=
    fun col hc => (List.mem_filter.mp hc).2
  have hC'rect : ∀ col ∈ (transpose (t.filter hasEntry)).filter hasEntry,
      col.length = (t.filter hasEntry).length :=
    fun col hc => hCrect col (List.mem_filter.mp hc).1
  constructor
  · intro row hrow
    rw [trimTable] at hrow
    rcases eq_or_ne ((transpose (t.filter hasEntry)).filter hasEntry) [] with hC0 | hC0
    · rw [hC0] at hrow
      simp [transpose] at hrow
    have hC'len : ¬ ((transpose (t.filter hasEntry)).filter hasEntry).length = 0 := by
      simpa [List.length_eq_zero] using hC0
    rw [transpose, if_neg hC'len] at hrow
    rcases List.mem_map.mp hrow with ⟨i, hi, rfl⟩
    have hi' : i < ((((transpose (t.filter hasEntry)).filter hasEntry)).headD []).length :=
      List.mem_range.mp hi
    have hhd : ((((transpose (t.filter hasEntry)).filter hasEntry)).headD []).length =
        (t.filter hasEntry).length :=
      hC'rect _ (headD_mem [] hC0)
    have him : i < (t.filter hasEntry).length := by omega
    have hrmem : (t.filter hasEntry).getD i [] ∈ t.filter hasEntry := getD_mem [] him
    have hentry := hR0entry _ hrmem
    rw [hasEntry, List.any_eq_true] at hentry
    rcases hentry with ⟨cell, hcellmem, hcellne⟩
    rcases List.mem_iff_getElem.mp hcellmem with ⟨j0, hj0, hcell⟩
    have hR0w : ((t.filter hasEntry).headD []).length = n :=
      hR0rect _ (headD_mem [] h0)
    have hj0' : j0 < ((t.filter hasEntry).headD []).length := by
      rw [hR0w, ← hR0rect _ hrmem]
      exact hj0
    have hcolmem : columnAt (t.filter hasEntry) j0 ∈ transpose (t.filter hasEntry) := by
      rw [transpose_eq_map_columnAt _ h0]
      exact List.mem_map_of_mem _ (List.mem_range.mpr hj0')
    have hvalcol : ((t.filter hasEntry).getD i []).getD j0 "" ∈ columnAt (t.filter hasEntry) j0 :=
      List.mem_map_of_mem _ hrmem
    have hvalne : decide (((t.filter hasEntry).getD i []).getD j0 "" ≠ "") = true := by
      rw [List.getD_eq_getElem _ _ hj0, hcell]
      exact hcellne
    have hcolentry : hasEntry (columnAt (t.filter hasEntry) j0) = true := by
      rw [hasEntry, List.any_eq_true]
      exact ⟨_, hvalcol, hvalne⟩
    have hcolC' : columnAt (t.filter hasEntry) j0 ∈
        (transpose (t.filter hasEntry)).filter hasEntry :=
      List.mem_filter.mpr ⟨hcolmem, hcolentry⟩
    rcases List.mem_iff_getElem.mp hcolC' with ⟨j1, hj1, hcolj1⟩
    rw [hasEntry, List.any_eq_true]
    refine ⟨(((transpose (t.filter hasEntry)).filter hasEntry).getD j1 []).getD i "", ?_, ?_⟩
    · exact List.mem_map_of_mem _ (List.mem_range.mpr hj1)
    · rw [List.getD_eq_getElem _ _ hj1, hcolj1]
      rw [columnAt, List.getD_eq_getElem _ _ (by simpa using him), List.getElem_map,
        ← List.getD_eq_getElem (t.filter hasEntry) [] him]
      exact hvalne
  · intro col hcol
    rw [trimTable] at hcol
    rcases eq_or_ne ((transpose (t.filter hasEntry)).filter hasEntry) [] with hC0 | hC0
    · rw [hC0] at hcol
      simp [transpose] at hcol
    have hinv : transpose (transpose ((transpose (t.filter hasEntry)).filter hasEntry)) =
        (transpose (t.filter hasEntry)).filter hasEntry :=
      transpose_involution _ (t.filter hasEntry).length hR0len hC'rect
    rw [hinv] at hcol
    exact hC'entry _ hcol

/-- C10, witness: the trim invariant on a concrete 2×2 table. -/
theorem claim10_witness : hasEntry ["a", ""] = true :=
  (claim10_trimInvariant [["a", ""], ["", "b"]] 2 (by decide)).1 ["a", ""] (by decide)

/-- C2 (corrected): for a non-empty table, `header ++ data` is the prefix
of the input through the last complete row — preceded by a substituted
blank row exactly when the header block is empty — and every row after
the last complete row is incomplete and absent from both outputs.
Contrary to the claim as stated, the span starts at row 0, not at the
first complete row: leading incomplete rows are retained as the header,
and the data block alone starts at the first complete-and-numeric row
(default 0). -/
theorem claim2_splitSpan (t : Table String) (ht : t ≠ []) :
    (split t).header ++ (split t).data =
      (if firstDataIdx t = 0 then [List.replicate (t.headD []).length ""] else []) ++
        t.take (lastDataIdx t + 1) ∧
    ∀ q, lastDataIdx t < q → q < t.length →
      isCompleteRow (t.headD []).length (t.getD q []) = false := by
  have htl : 0 < t.length := List.length_pos.mpr ht
  have hfrlr : firstDataIdx t ≤ lastDataIdx t := by
    rw [firstDataIdx]
    cases hfi : findIdxP (fun row => isCompleteRow (t.headD []).length row && rowHasNumber row) t with
    | none => simp
    | some k =>
      simp only [Option.getD_some]
      obtain ⟨hk, hpk⟩ := findIdxP_some _ ([] : Row String) t k hfi
      have hcomp : isCompleteRow (t.headD []).length (t.getD k []) = true :=
        (Bool.and_eq_true_iff.mp hpk).1
      have hrevm : t.reverse.getD (t.length - 1 - k) [] = t.getD k [] := getD_reverse [] hk
      have hb : t.length - 1 - k < t.reverse.length := by
        rw [List.length_reverse]
        omega
      obtain ⟨j, hj, hle⟩ := findIdxP_le (isCompleteRow (t.headD []).length) ([] : Row String)
        t.reverse (t.length - 1 - k) hb (by rw [hrevm]; exact hcomp)
      rw [lastDataIdx, hj]
      simp only [Option.getD_some]
      omega
  have hlr : lastDataIdx t < t.length := by
    rw [lastDataIdx]
    omega
  constructor
  · have hdata0 : (t.take (lastDataIdx t + 1)).drop (firstDataIdx t) ≠ [] := by
      rw [← List.length_pos, List.length_drop, List.length_take]
      omega
    rw [split_eq t ht]
    dsimp only
    rw [if_neg hdata0]
    rcases Nat.eq_zero_or_pos (firstDataIdx t) with hfr0 | hfrpos
    · rw [hfr0]
      simp
    · have hne : t.take (firstDataIdx t) ≠ [] := by
        rw [Ne, List.take_eq_nil_iff]
        push_neg
        exact ⟨by omega, ht⟩
      rw [if_neg hne, if_neg (show ¬ firstDataIdx t = 0 from by omega)]
      have e1 : t.take (firstDataIdx t) = (t.take (lastDataIdx t + 1)).take (firstDataIdx t) := by
        rw [List.take_take]
        congr 1
        omega
      rw [e1, List.take_append_drop]
      simp
  · intro q hq1 hq2
    rw [lastDataIdx] at hq1
    cases hrev : findIdxP (isCompleteRow (t.headD []).length) t.reverse with
    | none =>
      rw [hrev] at hq1
      simp only [Option.getD_none] at hq1
      exfalso
      omega
    | some j =>
      rw [hrev] at hq1
      simp only [Option.getD_some] at hq1
      obtain ⟨hjlen, _⟩ := findIdxP_some _ ([] : Row String) t.reverse j hrev
      rw [List.length_reverse] at hjlen
      have hij : t.length - 1 - q < j := by omega
      have hfalse := findIdxP_lt_not (isCompleteRow (t.headD []).length) ([] : Row String)
        t.reverse j hrev (t.length - 1 - q) hij
      rwa [getD_reverse [] hq2] at hfalse

/-- C2, counterexample to the claim as stated: on
`[["a", ""], ["b", "1"]]` the leading incomplete row `["a", ""]` lies
before the complete-row span but is returned as the header, not
discarded. -/
theorem claim2_counterexample :
    (split [["a", ""], ["b", "1"]]).header = [["a", ""]] ∧
      (split [["a", ""], ["b", "1"]]).data = [["b", "1"]] ∧
      isCompleteRow 2 ["a", ""] = false := by decide

/-- C2, witness: the amended span equation on the table `[["x"]]`. -/
theorem claim2_witness :
    (split [["x"]]).header ++ (split [["x"]]).data =
      (if firstDataIdx [["x"]] = 0
          then [List.replicate (([["x"]] : Table String).headD []).length ""] else []) ++
        ([["x"]] : Table String).take (lastDataIdx [["x"]] + 1) :=
  (claim2_splitSpan [["x"]] (by decide)).1

end Xlsx
